import Mathlib

set_option autoImplicit false

namespace Hiku

/-!
Shallow embedding of the hiku core: the type algebra (hiku/types.py), the
result projector (hiku/denormalize/base.py), graph validation and the GraphQL
introspection resolvers (hiku/introspection/graphql.py).
-/

/-- Embeds the closed set of (parameterized) type constructors of
hiku/types.py: `Any`, `Boolean`, `String`, `Integer`, `Float`,
`Optional[t]`, `Sequence[t]`, `Mapping[k, v]`, `Record[{...}]`,
`Callable[...]`, `TypeRef[name]`. -/
inductive GType where
  | any
  | boolean
  | string
  | integer
  | float
  | optional (inner : GType)
  | sequence (item : GType)
  | mapping (key value : GType)
  | record (fields : List (String × GType))
  | callable (args : List GType)
  | typeref (name : String)
  deriving Repr

/-- Embeds `GenericMeta.__name__` for each constructor: the final node keeps
the constructor class name set at class-creation time, and
`TypingMeta.__getitem__` copies it unchanged into the parameterized node. -/
def typeNodeName : GType → String
  | .any => "Any"
  | .boolean => "Boolean"
  | .string => "String"
  | .integer => "Integer"
  | .float => "Float"
  | .optional _ => "Optional"
  | .sequence _ => "Sequence"
  | .mapping _ _ => "Mapping"
  | .record _ => "Record"
  | .callable _ => "Callable"
  | .typeref _ => "TypeRef"

/-- Embeds `GenericMeta.__hash__` / `TypingMeta.__hash__`, which return
`hash(self.__name__)`: the hash is a function of the constructor name alone,
so this key determines the Python hash value. -/
def typeHashKey (t : GType) : String :=
  typeNodeName t

/-- Constructor-tag comparison: true iff the two nodes were built from the
same type constructor (same metaclass, hence same `__name__`). -/
def sameCtor : GType → GType → Bool
  | .any, .any => true
  | .boolean, .boolean => true
  | .string, .string => true
  | .integer, .integer => true
  | .float, .float => true
  | .optional _, .optional _ => true
  | .sequence _, .sequence _ => true
  | .mapping _ _, .mapping _ _ => true
  | .record _, .record _ => true
  | .callable _, .callable _ => true
  | .typeref _, .typeref _ => true
  | _, _ => false

mutual

/-- Embeds `GenericMeta.__eq__`: `cls.__class__ is other.__class__ and
cls.__dict__ == other.__dict__`.  Same metaclass means same constructor tag;
the `__dict__` comparison recursively compares the stored parameters
(`__type__`, `__item_type__`, `__key_type__`/`__value_type__`,
`__field_types__` as an order-sensitive OrderedDict, `__arg_types__`,
`__type_name__`) using `__eq__` on the contained type nodes. -/
def typeEq : GType → GType → Bool
  | .any, .any => true
  | .boolean, .boolean => true
  | .string, .string => true
  | .integer, .integer => true
  | .float, .float => true
  | .optional a, .optional b => typeEq a b
  | .sequence a, .sequence b => typeEq a b
  | .mapping k v, .mapping k' v' => typeEq k k' && typeEq v v'
  | .record fs, .record gs => fieldTypesEq fs gs
  | .callable as, .callable bs => argTypesEq as bs
  | .typeref n, .typeref m => n == m
  | _, _ => false

/-- Embeds the OrderedDict comparison of `__field_types__`: order-sensitive,
keys by string equality, values by recursive `__eq__`. -/
def fieldTypesEq : List (String × GType) → List (String × GType) → Bool
  | [], [] => true
  | (n, a) :: fs, (m, b) :: gs => n == m && typeEq a b && fieldTypesEq fs gs
  | _, _ => false

/-- Embeds the list comparison of `__arg_types__`. -/
def argTypesEq : List GType → List GType → Bool
  | [], [] => true
  | a :: as_, b :: bs => typeEq a b && argTypesEq as_ bs
  | _, _ => false

end

/-- Parameter payloads accepted by `TypingMeta.__getitem__`, one shape per
constructor variant: a single type (`Optional`, `Sequence`), a pair
(`Mapping`), an ordered field map (`Record`), an argument list (`Callable`),
or a name (`TypeRef`). -/
inductive TypeParams where
  | one (t : GType)
  | pair (key value : GType)
  | fields (fs : List (String × GType))
  | args (ts : List GType)
  | refName (s : String)
  deriving Repr

/-- Embeds a `TypingMeta` class object: its `__name__`, whether `__final__`
is set, and the parameters stored by `__cls_init__` (none before
parameterization). -/
structure TypingNode where
  name : String
  params : Option TypeParams
  final : Bool
  deriving Repr

/-- Embeds `TypingMeta.__getitem__`: raises
`TypeError('Cannot substitute parameters in {!r}')` when `cls.__final__`
is already set; otherwise copies the class, runs `__cls_init__` with the
parameters and marks the copy final. -/
def getitem (cls : TypingNode) (p : TypeParams) : Except String TypingNode :=
  if cls.final then
    .error ("Cannot substitute parameters in " ++ cls.name)
  else
    .ok { cls with params := some p, final := true }

/-- Record type as stored in `RecordMeta.__field_types__`: an ordered map
from field name to type node. -/
abbrev RecordType := List (String × GType)

/-- Python dict lookup by key: value of the first matching key, if any. -/
def dictGet {α : Type} : List (String × α) → String → Option α
  | [], _ => none
  | (k', v) :: rest, k => if k' = k then some v else dictGet rest k

/-- Python dict insertion-order write semantics: an existing key keeps its
position and gets the new value; a fresh key is appended at the end. -/
def dictInsert {α : Type} : List (String × α) → String → α → List (String × α)
  | [], k, v => [(k, v)]
  | (k', v') :: rest, k, v =>
      if k' = k then (k', v) :: rest else (k', v') :: dictInsert rest k v

/-- Modelled from the spec: the ResultProxy (hiku.result, external to the
core) — a nested structure keyed by result key: scalar, nested proxy,
ordered list of proxies, or null. -/
inductive PValue where
  | null
  | int (n : Int)
  | str (s : String)
  | bool (b : Bool)
  | obj (fields : List (String × PValue))
  | list (items : List PValue)
  deriving Repr

/-- Modelled from the spec: a query node item (hiku.query, external) — a
requested field or link, each carrying a possibly-aliased result key and,
for links, nested children; `QueryVisitor.visit` walks the items in query
order. -/
inductive QueryItem where
  | field (name result_key : String)
  | link (name result_key : String) (children : List QueryItem)

/-- Result key under which an item's value is written (the alias when the
query used one, otherwise the name). -/
def QueryItem.resultKey : QueryItem → String
  | .field _ rkey => rkey
  | .link _ rkey _ => rkey

/-- Output values produced by `Denormalize`: values copied verbatim from the
proxy for fields, plus nested dicts, lists and null built for links. -/
inductive OValue where
  | raw (v : PValue)
  | null
  | obj (fields : List (String × OValue))
  | list (items : List OValue)
  deriving Repr

/-- Failures of the projector: `KeyError` on a missing dict key,
`AssertionError` on an internal-invariant violation, `TypeError` on an
unusable proxy value. -/
inductive DenormError where
  | key (k : String)
  | assertion (msg : String)
  | typeErr (msg : String)
  deriving Repr, DecidableEq

/-- Embeds `self._data[-1][key]`: subscripting the current proxy value. -/
def proxyGet (v : PValue) (k : String) : Except DenormError PValue :=
  match v with
  | .obj fields =>
      match dictGet fields k with
      | some x => .ok x
      | none => .error (.key k)
  | _ => .error (.typeErr "proxy value is not subscriptable")

/-- Embeds `for item in self._data[-1][key]`: the proxy value under a
sequence link must be an ordered list of proxies. -/
def proxyItems (v : PValue) : Except DenormError (List PValue) :=
  match v with
  | .list items => .ok items
  | _ => .error (.typeErr "proxy value is not iterable")

mutual

/-- Embeds `Denormalize.visit` over a query node's items: processes them in
query order against the current record type frame, proxy frame and output
frame (the deques `_type`, `_data`, `_res` of the source, made explicit
arguments). -/
def visitItems (types : List (String × RecordType)) (rty : RecordType)
    (data : PValue) :
    List QueryItem → List (String × OValue) →
      Except DenormError (List (String × OValue))
  | [], acc => .ok acc
  | i :: rest, acc =>
      match visitItem types rty data i acc with
      | .error e => .error e
      | .ok acc' => visitItems types rty data rest acc'

/-- Embeds `Denormalize.visit_field` and `Denormalize.visit_link`
(hiku/denormalize/base.py lines 43-81), one query item at a time. -/
def visitItem (types : List (String × RecordType)) (rty : RecordType)
    (data : PValue) :
    QueryItem → List (String × OValue) →
      Except DenormError (List (String × OValue))
  | .field _ rkey, acc =>
      match proxyGet data rkey with
      | .error e => .error e
      | .ok v => .ok (dictInsert acc rkey (.raw v))
  | .link name rkey children, acc =>
      match dictGet rty name with
      | none => .error (.key name)
      | some ty =>
        match ty with
        | .typeref tn =>
            match dictGet types tn with
            | none => .error (.key tn)
            | some childTy =>
              match proxyGet data rkey with
              | .error e => .error e
              | .ok childData =>
                match visitItems types childTy childData children [] with
                | .error e => .error e
                | .ok sub => .ok (dictInsert acc rkey (.obj sub))
        | .sequence item =>
            match item with
            | .typeref tn =>
                match dictGet types tn with
                | none => .error (.key tn)
                | some childTy =>
                  match proxyGet data rkey with
                  | .error e => .error e
                  | .ok lv =>
                    match proxyItems lv with
                    | .error e => .error e
                    | .ok ds =>
                      match visitList types childTy children ds with
                      | .error e => .error e
                      | .ok subs => .ok (dictInsert acc rkey (.list subs))
            | _ => .error (.assertion "sequence item type is not a TypeRef")
        | .optional inner =>
            match proxyGet data rkey with
            | .error e => .error e
            | .ok .null => .ok (dictInsert acc rkey .null)
            | .ok v =>
                match inner with
                | .typeref tn =>
                    match dictGet types tn with
                    | none => .error (.key tn)
                    | some childTy =>
                      match visitItems types childTy v children [] with
                      | .error e => .error e
                      | .ok sub => .ok (dictInsert acc rkey (.obj sub))
                | _ =>
                    .error (.assertion "optional inner type is not a TypeRef")
        | other =>
            .error (.assertion ("link type " ++ typeNodeName other ++
              " is not TypeRef, Sequence or Optional"))

/-- Embeds the per-item loop of the `SequenceMeta` branch of `visit_link`:
each proxy item is denormalized against the child record type and the
results are collected in order. -/
def visitList (types : List (String × RecordType)) (childTy : RecordType)
    (children : List QueryItem) :
    List PValue → Except DenormError (List OValue)
  | [] => .ok []
  | d :: ds =>
      match visitItems types childTy d children [] with
      | .error e => .error e
      | .ok sub =>
        match visitList types childTy children ds with
        | .error e => .error e
        | .ok rest => .ok (.obj sub :: rest)

end

/-- Embeds `Denormalize.__init__` plus `Denormalize.process`: the root record
type is `graph.__types__['__root__']` and the query's items are visited
against the root result proxy, starting from an empty output dict. -/
def denormalize (types : List (String × RecordType)) (result : PValue)
    (query : List QueryItem) : Except DenormError (List (String × OValue)) :=
  match dictGet types "__root__" with
  | none => .error (.key "__root__")
  | some rootTy => visitItems types rootTy result query []

/-- The three link type shapes sanctioned for links: `TypeRef(X)`,
`Optional(TypeRef(X))`, `Sequence(TypeRef(X))`. -/
def sanctionedLinkType : GType → Bool
  | .typeref _ => true
  | .optional (.typeref _) => true
  | .sequence (.typeref _) => true
  | _ => false

/-- Head constructors accepted by the isinstance dispatch of `visit_link`
before its trailing `raise AssertionError(repr(type_))` branch. -/
def linkBranchHead : GType → Bool
  | .typeref _ => true
  | .sequence _ => true
  | .optional _ => true
  | _ => false

mutual

/-- All link types that this query can make `visit_link` inspect, at every
level, are of a sanctioned shape. -/
def linksOkItems (types : List (String × RecordType)) (rty : RecordType) :
    List QueryItem → Bool
  | [] => true
  | i :: rest => linksOkItem types rty i && linksOkItems types rty rest

/-- Per-item part of `linksOkItems`. -/
def linksOkItem (types : List (String × RecordType)) (rty : RecordType) :
    QueryItem → Bool
  | .field _ _ => true
  | .link name _ children =>
      match dictGet rty name with
      | none => true
      | some (.typeref tn) =>
          (match dictGet types tn with
           | none => true
           | some childTy => linksOkItems types childTy children)
      | some (.sequence (.typeref tn)) =>
          (match dictGet types tn with
           | none => true
           | some childTy => linksOkItems types childTy children)
      | some (.optional (.typeref tn)) =>
          (match dictGet types tn with
           | none => true
           | some childTy => linksOkItems types childTy children)
      | some _ => false

end

/-- Modelled from the spec: an option descriptor (hiku.graph.Option) — the
validator reads its name, the introspection resolvers read its name and
declared type. -/
structure GOption where
  name : String
  type : GType

/-- Modelled from the spec: the data of a field or link descriptor of
hiku.graph that the validator and the introspection resolvers read — the
name and the ordered option list. -/
structure GFieldData where
  name : String
  options : List GOption

/-- Modelled from the spec: a member of a node's ordered `fields` list,
which holds both `Field` and `Link` descriptors. -/
inductive NodeField where
  | field (d : GFieldData)
  | link (d : GFieldData)

/-- Descriptor data of a node member. -/
def NodeField.data : NodeField → GFieldData
  | .field d => d
  | .link d => d

/-- Name of a node member. -/
def NodeField.name (f : NodeField) : String :=
  f.data.name

/-- Modelled from the spec: a named schema node (hiku.graph.Node). -/
structure GNode where
  name : String
  fields : List NodeField

/-- Modelled from the spec: the Root node (hiku.graph.Root). -/
structure GRoot where
  fields : List NodeField

/-- Modelled from the spec: an item of `Graph.items` — a named node or the
Root. -/
inductive GItem where
  | node (n : GNode)
  | root (r : GRoot)

/-- Modelled from the spec: a schema graph (hiku.graph.Graph) — its ordered
items plus the registry of named data types. -/
structure GGraph where
  items : List GItem
  dataTypes : List (String × RecordType)

/-- Modelled from the spec: `Graph.nodes` — the named nodes among the
items. -/
def GGraph.nodes (g : GGraph) : List GNode :=
  g.items.filterMap fun item =>
    match item with
    | .node n => some n
    | .root _ => none

/-- Modelled from the spec: the field list of `Graph.root` (the first Root
item; an absent Root is modelled as an empty field list). -/
def GGraph.rootFields (g : GGraph) : List NodeField :=
  match g.items.filterMap (fun item =>
    match item with
    | .root r => some r
    | .node _ => none) with
  | [] => []
  | r :: _ => r.fields

/-- ASCII characters of the `\w` class used by `ValidateGraph._name_re`. -/
def isWordChar (c : Char) : Bool :=
  c = '_' || c.isAlpha || c.isDigit

/-- ASCII characters of the `[_a-zA-Z]` class. -/
def isWordStart (c : Char) : Bool :=
  c = '_' || c.isAlpha

/-- Full match of `[_a-zA-Z]\w*` against a character list. -/
def validCore : List Char → Bool
  | [] => false
  | c :: cs => isWordStart c && cs.all isWordChar

/-- Embeds `ValidateGraph._name_re.match(name)` for the pattern
`^[_a-zA-Z]\w*$` under `re.ASCII`: the `$` anchor of Python also matches
just before one trailing newline. -/
def validName (s : String) : Bool :=
  validCore s.data
  || (s.data.getLast? == some (Char.ofNat 10) && validCore s.data.dropLast)

/-- Embeds `ValidateGraph._add_error`: the recorded violation string is
`'.'.flatten(path + [name]) + ': ' + description`. -/
def mkValidationError (path : List String) (name description : String) :
    String :=
  String.intercalate "." (path ++ [name]) ++ ": " ++ description

/-- Embeds `ValidateGraph.visit_option`. -/
def optionErrors (path : List String) (o : GOption) : List String :=
  if validName o.name then []
  else [mkValidationError path o.name ("Invalid option name: " ++ o.name)]

/-- Embeds `ValidateGraph.visit_field`: the name check followed by the
option checks (the path is not extended for options). -/
def fieldErrors (path : List String) (d : GFieldData) : List String :=
  (if validName d.name then []
   else [mkValidationError path d.name ("Invalid field name: " ++ d.name)])
  ++ (d.options.map (optionErrors path)).flatten

/-- Embeds `ValidateGraph.visit_link`: like a field but with the link
message. -/
def linkErrors (path : List String) (d : GFieldData) : List String :=
  (if validName d.name then []
   else [mkValidationError path d.name ("Invalid link name: " ++ d.name)])
  ++ (d.options.map (optionErrors path)).flatten

/-- Violations of one node member. -/
def nodeFieldErrors (path : List String) : NodeField → List String
  | .field d => fieldErrors path d
  | .link d => linkErrors path d

/-- Embeds `ValidateGraph.visit_node`: the node name check, then either the
member checks under the node's path or the empty-node violation. -/
def nodeErrors (n : GNode) : List String :=
  (if validName n.name then []
   else [mkValidationError [] n.name ("Invalid node name: " ++ n.name)])
  ++ (if n.fields.isEmpty then
        [mkValidationError [] n.name
          ("No fields in the " ++ n.name ++ " node")]
      else (n.fields.map (nodeFieldErrors [n.name])).flatten)

/-- Embeds `ValidateGraph.visit_root`. -/
def rootErrors (r : GRoot) : List String :=
  if r.fields.isEmpty then
    [mkValidationError [] "Root" "No fields in the Root node"]
  else (r.fields.map (nodeFieldErrors ["Root"])).flatten

/-- Violations of one graph item. -/
def graphItemErrors : GItem → List String
  | .node n => nodeErrors n
  | .root r => rootErrors r

/-- All violations collected across the whole graph, in visit order. -/
def graphErrors (g : GGraph) : List String :=
  (g.items.map graphItemErrors).flatten

/-- Embeds `ValidateGraph.validate`: collect every violation, then raise a
single `ValueError` whose message lists each one as a `- <path>: <message>`
line, or return normally when there is none. -/
def validateGraph (g : GGraph) : Except String Unit :=
  if graphErrors g = [] then .ok ()
  else
    .error ("Invalid GraphQL graph:\n"
      ++ String.intercalate "\n" ((graphErrors g).map (fun e => "- " ++ e)))

/-- Specification-side well-formedness of a graph: every node, field, link
and option identifier is valid and every node and the Root declare at least
one field. -/
def WellFormedGraph (g : GGraph) : Prop :=
  ∀ item ∈ g.items,
    match item with
    | .node n =>
        validName n.name = true ∧ n.fields ≠ []
        ∧ ∀ f ∈ n.fields, validName f.name = true
            ∧ ∀ o ∈ f.data.options, validName o.name = true
    | .root r =>
        r.fields ≠ []
        ∧ ∀ f ∈ r.fields, validName f.name = true
            ∧ ∀ o ∈ f.data.options, validName o.name = true

/-- Modelled from the spec: identity objects (hiku.introspection.types) —
immutable structurally-compared tokens standing in for GraphQL types,
fields, arguments and directives during meta-schema resolution. -/
inductive Ident where
  | SCALAR (name : String)
  | OBJECT (name : String)
  | INPUT_OBJECT (name : String)
  | NON_NULL (of_type : Ident)
  | LIST (of_type : Ident)
  | DIRECTIVE (name : String)
  | FieldIdent (node name : String)
  | FieldArgIdent (node field name : String)
  | InputObjectFieldIdent (type_name key : String)
  | DirectiveArgIdent (directive arg : String)
  deriving Repr, DecidableEq

/-- Embeds `Directive.Argument` of hiku/introspection/graphql.py. -/
structure DirectiveArgument where
  name : String
  typeIdent : Ident
  description : String
  defaultValue : Option String
  deriving Repr, DecidableEq

/-- Embeds the frozen `Directive` dataclass. -/
structure Directive where
  name : String
  locations : List String
  description : String
  args : List DirectiveArgument
  deriving Repr, DecidableEq

/-- Embeds `_BUILTIN_DIRECTIVES`: skip, include, deprecated and the
non-standard cached. -/
def builtinDirectives : List Directive :=
  [⟨"skip", ["FIELD", "FRAGMENT_SPREAD", "INLINE_FRAGMENT"],
    "Directs the executor to skip this field or fragment when the `if` argument is true.",
    [⟨"if", .NON_NULL (.SCALAR "Boolean"), "Skipped when true.", none⟩]⟩,
   ⟨"include", ["FIELD", "FRAGMENT_SPREAD", "INLINE_FRAGMENT"],
    "Directs the executor to include this field or fragment only when the `if` argument is true.",
    [⟨"if", .NON_NULL (.SCALAR "Boolean"), "Included when true.", none⟩]⟩,
   ⟨"deprecated", ["FIELD_DEFINITION", "ENUM_VALUE"],
    "Marks the field or enum value as deprecated",
    [⟨"reason", .SCALAR "String", "Deprecation reason.", none⟩]⟩,
   ⟨"cached", ["FIELD", "FRAGMENT_SPREAD", "INLINE_FRAGMENT"],
    "Caches node and all its fields",
    [⟨"ttl", .NON_NULL (.SCALAR "Int"), "How long field will live in cache.",
      none⟩]⟩]

/-- Embeds `SchemaInfo`: the read-only snapshot every introspection resolver
is partially applied against. -/
structure SchemaInfo where
  queryGraph : GGraph
  mutationGraph : Option GGraph
  directives : List Directive

/-- Embeds `_nodes_map`: the query graph's named nodes, then
`'Query' -> query_graph.root`, then `'Mutation' -> mutation_graph.root`
when a mutation graph is present. -/
def nodesMap (s : SchemaInfo) : List (String × List NodeField) :=
  s.queryGraph.nodes.map (fun n => (n.name, n.fields))
  ++ [("Query", s.queryGraph.rootFields)]
  ++ (match s.mutationGraph with
      | some mg => [("Mutation", mg.rootFields)]
      | none => [])

/-- Embeds `type_link`: `__type(name: X)` resolves to `OBJECT(X)` when `X`
is a key of `_nodes_map`, and to `Nothing` — the explicit absence value,
projected as null through the link's `Optional` type — otherwise. -/
def typeLink (s : SchemaInfo) (nameOption : String) : Option Ident :=
  match dictGet (nodesMap s) nameOption with
  | some _ => some (.OBJECT nameOption)
  | none => none

/-- Embeds the `TypeIdent` visitor: maps a declared type to its
introspection identity; `inputMode` sends TypeRef targets to INPUT_OBJECT,
asserting that the target is a registered data type. -/
def typeIdentVisit (dataTypes : List (String × RecordType))
    (inputMode : Bool) : GType → Except String Ident
  | .any => .ok (.SCALAR "Any")
  | .mapping _ _ => .ok (.SCALAR "Any")
  | .record _ => .ok (.SCALAR "Any")
  | .callable _ => .error "Not expected here: Callable"
  | .sequence item =>
      match typeIdentVisit dataTypes inputMode item with
      | .error e => .error e
      | .ok i => .ok (.NON_NULL (.LIST i))
  | .optional t =>
      match typeIdentVisit dataTypes inputMode t with
      | .error e => .error e
      | .ok (.NON_NULL x) => .ok x
      | .ok i => .ok i
  | .typeref n =>
      if inputMode then
        match dictGet dataTypes n with
        | some _ => .ok (.NON_NULL (.INPUT_OBJECT n))
        | none => .error ("AssertionError: " ++ n)
      else .ok (.NON_NULL (.OBJECT n))
  | .string => .ok (.NON_NULL (.SCALAR "String"))
  | .integer => .ok (.NON_NULL (.SCALAR "Int"))
  | .float => .ok (.NON_NULL (.SCALAR "Float"))
  | .boolean => .ok (.NON_NULL (.SCALAR "Boolean"))

/-- Embeds Python's `name.startswith('_')`. -/
def startsWithUnderscore (s : String) : Bool :=
  match s.data with
  | [] => false
  | c :: _ => c = '_'

/-- Embeds one loop iteration of `type_fields_link`: for `OBJECT(name)` the
node's members are filtered to drop every name starting with an underscore,
while a data-type record keeps all of its field names; an empty resulting
list raises the zero-field `TypeError`, and a non-OBJECT identity yields an
empty list. -/
def typeFieldsRow (s : SchemaInfo) (ident : Ident) :
    Except String (List Ident) :=
  match ident with
  | .OBJECT nm =>
      match
        (match dictGet (nodesMap s) nm with
         | some fields =>
             .ok (fields.filterMap (fun f =>
               if startsWithUnderscore f.name then none
               else some (Ident.FieldIdent nm f.name)))
         | none =>
             match dictGet s.queryGraph.dataTypes nm with
             | some recTy =>
                 .ok (recTy.map (fun p => Ident.FieldIdent nm p.1))
             | none => .error ("KeyError: " ++ nm)
          : Except String (List Ident))
      with
      | .error e => .error e
      | .ok fi =>
          if fi.isEmpty then
            .error ("Object type \"" ++ nm ++ "\" does not contain fields, which is not acceptable for GraphQL in order to define schema type")
          else .ok fi
  | _ => .ok []

/-- Embeds `type_fields_link` over the full ordered identity batch. -/
def typeFieldsLink (s : SchemaInfo) :
    List Ident → Except String (List (List Ident))
  | [] => .ok []
  | i :: rest =>
      match typeFieldsRow s i with
      | .error e => .error e
      | .ok row =>
          match typeFieldsLink s rest with
          | .error e => .error e
          | .ok rows => .ok (row :: rows)

/-- Embeds `GraphQLIntrospection.visit_node` (with the transformer copy):
the synthetic `__typename` name-introspection field is appended to the
node's field list. -/
def addTypename (n : GNode) : GNode :=
  { n with fields := n.fields ++ [.field ⟨"__typename", []⟩] }

/-- Cell values produced by the info resolvers. -/
inductive CellVal where
  | str (s : String)
  | strList (l : List String)
  deriving Repr, DecidableEq

/-- Embeds the `.name` attribute access on an identity namedtuple (absent on
wrapper and compound identities without a `name` component). -/
def identNameAttr : Ident → Option String
  | .SCALAR n => some n
  | .OBJECT n => some n
  | .INPUT_OBJECT n => some n
  | .DIRECTIVE n => some n
  | .FieldIdent _ n => some n
  | .FieldArgIdent _ _ n => some n
  | _ => none

/-- Embeds the `info` dict of `directive_value_info` and the
`[info[f.name] for f in fields]` row construction. -/
def directiveRow (d : Directive) (fields : List String) :
    Except String (List CellVal) :=
  fields.mapM fun f =>
    if f = "name" then .ok (.str d.name)
    else if f = "description" then .ok (.str d.description)
    else if f = "locations" then .ok (.strList d.locations)
    else .error ("KeyError: " ++ f)

/-- Embeds `directive_value_info`: a row is yielded only when the identity's
name is a key of `schema.directives_map` — an identity with an unknown name
contributes no row at all. -/
def directiveValueInfo (dirs : List Directive) (fields : List String) :
    List Ident → Except String (List (List CellVal))
  | [] => .ok []
  | ident :: rest =>
      match identNameAttr ident with
      | none => .error "AttributeError: name"
      | some nm =>
          match dirs.find? (fun d => d.name == nm) with
          | none => directiveValueInfo dirs fields rest
          | some d =>
              match directiveRow d fields with
              | .error e => .error e
              | .ok row =>
                  match directiveValueInfo dirs fields rest with
                  | .error e => .error e
                  | .ok rows => .ok (row :: rows)

/-- Modelled from the spec: the `fields_map` name lookup of hiku.graph
nodes. -/
def fieldsMapGet : List NodeField → String → Option GFieldData
  | [], _ => none
  | f :: rest, nm => if f.name = nm then some f.data else fieldsMapGet rest nm

/-- Modelled from the spec: the `options_map` name lookup of hiku.graph
fields and links. -/
def optionsMapGet : List GOption → String → Option GOption
  | [], _ => none
  | o :: rest, nm => if o.name = nm then some o else optionsMapGet rest nm

/-- Embeds one loop iteration of `input_value_type_link`: a `FieldArgIdent`
and an `InputObjectFieldIdent` each yield exactly one type identity, while a
`DirectiveArgIdent(directive, arg)` iterates `directive.args` and yields
`arg.type_ident` of every argument of the directive, ignoring the requested
`arg`; any other identity raises `TypeError`. -/
def inputValueTypeRows (s : SchemaInfo) : Ident → Except String (List Ident)
  | .FieldArgIdent node field nm =>
      match dictGet (nodesMap s) node with
      | none => .error ("KeyError: " ++ node)
      | some fields =>
          match fieldsMapGet fields field with
          | none => .error ("KeyError: " ++ field)
          | some fd =>
              match optionsMapGet fd.options nm with
              | none => .error ("KeyError: " ++ nm)
              | some o =>
                  match typeIdentVisit s.queryGraph.dataTypes true o.type with
                  | .error e => .error e
                  | .ok i => .ok [i]
  | .InputObjectFieldIdent tname key =>
      match dictGet s.queryGraph.dataTypes tname with
      | none => .error ("KeyError: " ++ tname)
      | some recTy =>
          match dictGet recTy key with
          | none => .error ("KeyError: " ++ key)
          | some ft =>
              match typeIdentVisit s.queryGraph.dataTypes true ft with
              | .error e => .error e
              | .ok i => .ok [i]
  | .DirectiveArgIdent dname _ =>
      match s.directives.find? (fun d => d.name == dname) with
      | none => .error ("KeyError: " ++ dname)
      | some d => .ok (d.args.map (fun a => a.typeIdent))
  | _ => .error "TypeError"

/-- Embeds `input_value_type_link` over the full ordered identity batch
(the listify decorator flattens the yielded rows into one list). -/
def inputValueTypeLink (s : SchemaInfo) :
    List Ident → Except String (List Ident)
  | [] => .ok []
  | ident :: rest =>
      match inputValueTypeRows s ident with
      | .error e => .error e
      | .ok rows =>
          match inputValueTypeLink s rest with
          | .error e => .error e
          | .ok more => .ok (rows ++ more)

/-!
Theorems.
-/

theorem fieldTypesEq_iff_of (n : Nat)
    (ih : ∀ a b : GType, sizeOf a < n → (typeEq a b = true ↔ a = b)) :
    ∀ fs gs : List (String × GType), sizeOf fs < n →
      (fieldTypesEq fs gs = true ↔ fs = gs) := by
  intro fs
  induction fs with
  | nil =>
    intro gs _
    cases gs <;> simp [fieldTypesEq]
  | cons p fs ihl =>
    intro gs hsz
    cases gs with
    | nil => simp [fieldTypesEq]
    | cons q gs =>
      obtain ⟨pn, pt⟩ := p
      obtain ⟨qn, qt⟩ := q
      have h1 : sizeOf pt < n := by simp at hsz; omega
      have h2 : sizeOf fs < n := by simp at hsz; omega
      simp [fieldTypesEq, ih pt qt h1, ihl gs h2, and_assoc]

theorem argTypesEq_iff_of (n : Nat)
    (ih : ∀ a b : GType, sizeOf a < n → (typeEq a b = true ↔ a = b)) :
    ∀ as_ bs : List GType, sizeOf as_ < n →
      (argTypesEq as_ bs = true ↔ as_ = bs) := by
  intro as_
  induction as_ with
  | nil =>
    intro bs _
    cases bs <;> simp [argTypesEq]
  | cons a as_ ihl =>
    intro bs hsz
    cases bs with
    | nil => simp [argTypesEq]
    | cons b bs =>
      have h1 : sizeOf a < n := by simp at hsz; omega
      have h2 : sizeOf as_ < n := by simp at hsz; omega
      simp [argTypesEq, ih a b h1, ihl bs h2]

theorem typeEq_iff_bounded :
    ∀ (n : Nat) (a b : GType), sizeOf a < n → (typeEq a b = true ↔ a = b) := by
  intro n
  induction n with
  | zero =>
    intro a b h
    exact absurd h (Nat.not_lt_zero _)
  | succ n ih =>
    intro a b ha
    cases a with
    | any => cases b <;> simp [typeEq]
    | boolean => cases b <;> simp [typeEq]
    | string => cases b <;> simp [typeEq]
    | integer => cases b <;> simp [typeEq]
    | float => cases b <;> simp [typeEq]
    | typeref nm => cases b <;> simp [typeEq]
    | optional x =>
      have hx : sizeOf x < n := by simp at ha; omega
      cases b <;> try (simp [typeEq]; done)
      rename_i y
      simp [typeEq, ih x y hx]
    | sequence x =>
      have hx : sizeOf x < n := by simp at ha; omega
      cases b <;> try (simp [typeEq]; done)
      rename_i y
      simp [typeEq, ih x y hx]
    | mapping k v =>
      have hk : sizeOf k < n := by simp at ha; omega
      have hv : sizeOf v < n := by simp at ha; omega
      cases b <;> try (simp [typeEq]; done)
      rename_i k' v'
      simp [typeEq, ih k k' hk, ih v v' hv]
    | record fs =>
      have hfs : sizeOf fs < n := by simp at ha; omega
      cases b <;> try (simp [typeEq]; done)
      rename_i gs
      simp [typeEq, fieldTypesEq_iff_of n ih fs gs hfs]
    | callable as_ =>
      have has : sizeOf as_ < n := by simp at ha; omega
      cases b <;> try (simp [typeEq]; done)
      rename_i bs
      simp [typeEq, argTypesEq_iff_of n ih as_ bs has]

theorem typeEq_iff (a b : GType) : typeEq a b = true ↔ a = b :=
  typeEq_iff_bounded (sizeOf a + 1) a b (Nat.lt_succ_self _)

theorem dictGet_insert_self {α : Type} (d : List (String × α)) (k : String)
    (v : α) : dictGet (dictInsert d k v) k = some v := by
  induction d with
  | nil => simp [dictInsert, dictGet]
  | cons p rest ih =>
    obtain ⟨k', v'⟩ := p
    by_cases h : k' = k
    · simp [dictInsert, dictGet, h]
    · simp [dictInsert, dictGet, h, ih]

theorem dictGet_insert_other {α : Type} (d : List (String × α))
    (k k' : String) (v : α) (h : k' ≠ k) :
    dictGet (dictInsert d k v) k' = dictGet d k' := by
  induction d with
  | nil => simp [dictInsert, dictGet, Ne.symm h]
  | cons p rest ih =>
    obtain ⟨k0, v0⟩ := p
    by_cases h0 : k0 = k
    · subst h0
      simp [dictInsert, dictGet, Ne.symm h]
    · simp [dictInsert, dictGet, h0, ih]

theorem dictInsert_fresh {α : Type} (d : List (String × α)) (k : String)
    (v : α) (h : dictGet d k = none) : dictInsert d k v = d ++ [(k, v)] := by
  induction d with
  | nil => simp [dictInsert]
  | cons p rest ih =>
    obtain ⟨k', v'⟩ := p
    by_cases h0 : k' = k
    · simp [dictGet, h0] at h
    · simp [dictGet, h0] at h
      simp [dictInsert, h0, ih h]

theorem dictGet_append_none {α : Type} (d : List (String × α))
    (k : String) (e : List (String × α)) (h : dictGet d k = none) :
    dictGet (d ++ e) k = dictGet e k := by
  induction d with
  | nil => simp
  | cons p rest ih =>
    obtain ⟨k', v'⟩ := p
    by_cases h0 : k' = k
    · simp [dictGet, h0] at h
    · simp [dictGet, h0] at h ⊢
      exact ih h

/-- Every successful `visitItem` writes exactly one entry: the output dict is
the input dict with a value inserted under the item's result key. -/
theorem visitItem_ok (types : List (String × RecordType)) (rty : RecordType)
    (data : PValue) (i : QueryItem) (acc out : List (String × OValue))
    (h : visitItem types rty data i acc = .ok out) :
    ∃ v, out = dictInsert acc i.resultKey v := by
  cases i with
  | field nm rkey =>
    simp only [visitItem, QueryItem.resultKey] at h ⊢
    split at h
    · exact Except.noConfusion h
    · injection h with h
      exact ⟨_, h.symm⟩
  | link nm rkey ch =>
    simp only [visitItem, QueryItem.resultKey] at h ⊢
    repeat' split at h
    all_goals
      first
        | exact Except.noConfusion h
        | (injection h with h; exact ⟨_, h.symm⟩)

/-- Inversion for a field item: the proxy is read at the result key and the
raw value is written under that same result key. -/
theorem visitItem_field_ok (types : List (String × RecordType))
    (rty : RecordType) (data : PValue) (nm rkey : String)
    (acc out : List (String × OValue))
    (h : visitItem types rty data (.field nm rkey) acc = .ok out) :
    ∃ v, proxyGet data rkey = .ok v ∧ out = dictInsert acc rkey (.raw v) := by
  simp only [visitItem] at h
  split at h
  · exact Except.noConfusion h
  · injection h with h
    exact ⟨_, by assumption, h.symm⟩

/-- Processing a list of query items whose result keys are fresh in the
current output dict and mutually distinct appends exactly one entry per item,
in query order, and leaves every other key unchanged. -/
theorem visitItems_ok_keys (types : List (String × RecordType)) :
    ∀ (items : List QueryItem) (rty : RecordType) (data : PValue)
      (acc out : List (String × OValue)),
      visitItems types rty data items acc = .ok out →
      (∀ i ∈ items, dictGet acc i.resultKey = none) →
      (items.map QueryItem.resultKey).Nodup →
      out.map Prod.fst = acc.map Prod.fst ++ items.map QueryItem.resultKey
      ∧ (∀ k, (∀ i ∈ items, i.resultKey ≠ k) →
          dictGet out k = dictGet acc k) := by
  intro items
  induction items with
  | nil =>
    intro rty data acc out hok hfresh hnd
    simp only [visitItems] at hok
    injection hok with hok
    subst hok
    simp
  | cons i rest ih =>
    intro rty data acc out hok hfresh hnd
    simp only [visitItems] at hok
    cases hv : visitItem types rty data i acc with
    | error e => simp [hv] at hok
    | ok acc' =>
      simp only [hv] at hok
      obtain ⟨v, hins⟩ := visitItem_ok types rty data i acc acc' hv
      have hik : dictGet acc i.resultKey = none :=
        hfresh i (List.mem_cons_self i rest)
      have hne : ∀ j ∈ rest, j.resultKey ≠ i.resultKey := by
        intro j hj heq
        have : i.resultKey ∈ rest.map QueryItem.resultKey :=
          heq ▸ List.mem_map_of_mem QueryItem.resultKey hj
        exact (List.nodup_cons.mp hnd).1 this
      have hfresh' : ∀ j ∈ rest, dictGet acc' j.resultKey = none := by
        intro j hj
        rw [hins, dictGet_insert_other acc i.resultKey j.resultKey v
          (hne j hj)]
        exact hfresh j (List.mem_cons_of_mem i hj)
      have hnd' : (rest.map QueryItem.resultKey).Nodup :=
        (List.nodup_cons.mp hnd).2
      obtain ⟨hkeys, hother⟩ := ih rty data acc' out hok hfresh' hnd'
      constructor
      · rw [hkeys, hins, dictInsert_fresh acc i.resultKey v hik]
        simp
      · intro k hk
        rw [hother k (fun j hj => hk j (List.mem_cons_of_mem i hj)), hins,
          dictGet_insert_other acc i.resultKey k v
          (Ne.symm (hk i (List.mem_cons_self i rest)))]

/-- Every field item of a successfully processed query node reads the proxy
at the field's result key and the produced output holds exactly that raw
value under the same result key. -/
theorem visitItems_field_values (types : List (String × RecordType)) :
    ∀ (items : List QueryItem) (rty : RecordType) (data : PValue)
      (acc out : List (String × OValue)),
      visitItems types rty data items acc = .ok out →
      (∀ i ∈ items, dictGet acc i.resultKey = none) →
      (items.map QueryItem.resultKey).Nodup →
      ∀ nm rkey, QueryItem.field nm rkey ∈ items →
        ∃ v, proxyGet data rkey = .ok v
          ∧ dictGet out rkey = some (.raw v) := by
  intro items
  induction items with
  | nil =>
    intro rty data acc out _ _ _ nm rkey hmem
    simp at hmem
  | cons i rest ih =>
    intro rty data acc out hok hfresh hnd nm rkey hmem
    simp only [visitItems] at hok
    cases hv : visitItem types rty data i acc with
    | error e => simp [hv] at hok
    | ok acc' =>
      simp only [hv] at hok
      obtain ⟨w, hins⟩ := visitItem_ok types rty data i acc acc' hv
      have hne : ∀ j ∈ rest, j.resultKey ≠ i.resultKey := by
        intro j hj heq
        have : i.resultKey ∈ rest.map QueryItem.resultKey :=
          heq ▸ List.mem_map_of_mem QueryItem.resultKey hj
        exact (List.nodup_cons.mp hnd).1 this
      have hfresh' : ∀ j ∈ rest, dictGet acc' j.resultKey = none := by
        intro j hj
        rw [hins, dictGet_insert_other acc i.resultKey j.resultKey w
          (hne j hj)]
        exact hfresh j (List.mem_cons_of_mem i hj)
      have hnd' : (rest.map QueryItem.resultKey).Nodup :=
        (List.nodup_cons.mp hnd).2
      rcases List.mem_cons.mp hmem with hi | hi
      · subst hi
        obtain ⟨v, hpv, hacc'⟩ :=
          visitItem_field_ok types rty data nm rkey acc acc' hv
        refine ⟨v, hpv, ?_⟩
        obtain ⟨_, hother⟩ :=
          visitItems_ok_keys types rest rty data acc' out hok hfresh' hnd'
        rw [hother rkey (fun j hj => hne j hj), hacc',
          dictGet_insert_self]
      · exact ih rty data acc' out hok hfresh' hnd' nm rkey hi

/-- C1: for every query node processed by the result projector, the keys of
the produced output dict appear in the query's field/link order (its result
keys, which may be aliases), and every requested field is written into the
output under the query's result key, reading the proxy at that same result
key: output[result_key] = proxy[result_key]. -/
theorem denorm_output_order_and_alias (types : List (String × RecordType))
    (rty : RecordType) (data : PValue) (items : List QueryItem)
    (out : List (String × OValue))
    (hnd : (items.map QueryItem.resultKey).Nodup)
    (hok : visitItems types rty data items [] = .ok out) :
    out.map Prod.fst = items.map QueryItem.resultKey
    ∧ (∀ nm rkey, QueryItem.field nm rkey ∈ items →
        ∃ v, proxyGet data rkey = .ok v
          ∧ dictGet out rkey = some (.raw v)) := by
  have hfresh : ∀ i ∈ items, dictGet ([] : List (String × OValue))
      i.resultKey = none := by
    intro i _
    simp [dictGet]
  obtain ⟨hkeys, _⟩ :=
    visitItems_ok_keys types items rty data [] out hok hfresh hnd
  refine ⟨by simpa using hkeys, ?_⟩
  intro nm rkey hmem
  exact visitItems_field_values types items rty data [] out hok hfresh hnd
    nm rkey hmem

/-- Witness for C1: a field aliased as `x: realName` with a sibling field,
evaluated on a concrete proxy. -/
theorem denorm_output_order_and_alias_witness :
    ([("x", OValue.raw (.int 1)), ("b", OValue.raw (.int 2))].map Prod.fst
      = ["x", "b"])
    ∧ (∃ v, proxyGet (.obj [("x", .int 1), ("b", .int 2)]) "x" = .ok v
        ∧ dictGet [("x", OValue.raw (.int 1)), ("b", OValue.raw (.int 2))] "x"
            = some (.raw v)) := by
  have h := denorm_output_order_and_alias [] []
    (.obj [("x", .int 1), ("b", .int 2)])
    [.field "realName" "x", .field "b" "b"]
    [("x", OValue.raw (.int 1)), ("b", OValue.raw (.int 2))]
    (by simp [QueryItem.resultKey])
    (by simp [visitItems, visitItem, proxyGet, dictGet, dictInsert])
  exact ⟨by simp, h.2 "realName" "x" (by simp)⟩

/-- C2: a link declared `Optional(TypeRef(X))` whose proxy value is null
projects to null without descending into `X` (no type-registry lookup, no
recursion into the children); with a non-null proxy value it behaves exactly
as a link declared `TypeRef(X)`. -/
theorem denorm_optional_link (types : List (String × RecordType))
    (rty : RecordType) (data : PValue) (name rkey : String)
    (children : List QueryItem) (acc : List (String × OValue)) (X : String)
    (hty : dictGet rty name = some (.optional (.typeref X))) :
    (proxyGet data rkey = .ok .null →
        visitItem types rty data (.link name rkey children) acc
          = .ok (dictInsert acc rkey .null))
    ∧ (∀ v, proxyGet data rkey = .ok v → v ≠ .null →
        visitItem types rty data (.link name rkey children) acc
          = visitItem types (dictInsert rty name (.typeref X)) data
              (.link name rkey children) acc) := by
  constructor
  · intro hp
    simp [visitItem, hty, hp]
  · intro v hp hv
    have hty' : dictGet (dictInsert rty name (.typeref X)) name
        = some (.typeref X) := dictGet_insert_self rty name _
    cases v with
    | null => exact absurd rfl hv
    | int n => simp [visitItem, hty, hty', hp]
    | str s => simp [visitItem, hty, hty', hp]
    | bool b => simp [visitItem, hty, hty', hp]
    | obj fs => simp [visitItem, hty, hty', hp]
    | list l => simp [visitItem, hty, hty', hp]

/-- Witness for C2: a null optional link projects to null even when the
target type name does not resolve and the child query is non-empty. -/
theorem denorm_optional_link_witness :
    visitItem [] [("lnk", .optional (.typeref "Ghost"))]
      (.obj [("lnk", .null)]) (.link "lnk" "lnk" [.field "f" "f"]) []
      = .ok [("lnk", .null)] := by
  have h := (denorm_optional_link [] [("lnk", .optional (.typeref "Ghost"))]
    (.obj [("lnk", .null)]) "lnk" "lnk" [.field "f" "f"] [] "Ghost"
    (by simp [dictGet])).1 (by simp [proxyGet, dictGet])
  simpa [dictInsert] using h

theorem proxyGet_no_assertion (data : PValue) (k m : String) :
    proxyGet data k ≠ .error (.assertion m) := by
  cases data with
  | obj fields =>
    simp only [proxyGet]
    cases dictGet fields k <;> simp
  | null => simp [proxyGet]
  | int n => simp [proxyGet]
  | str s => simp [proxyGet]
  | bool b => simp [proxyGet]
  | list l => simp [proxyGet]

theorem proxyItems_no_assertion (v : PValue) (m : String) :
    proxyItems v ≠ .error (.assertion m) := by
  cases v <;> simp [proxyItems]

theorem visitList_no_assertion (types : List (String × RecordType))
    (childTy : RecordType) (children : List QueryItem)
    (H : ∀ (d : PValue) (acc : List (String × OValue)) (m : String),
      visitItems types childTy d children acc ≠ .error (.assertion m)) :
    ∀ (ds : List PValue) (m : String),
      visitList types childTy children ds ≠ .error (.assertion m) := by
  intro ds
  induction ds with
  | nil =>
    intro m
    simp [visitList]
  | cons d ds ih =>
    intro m
    simp only [visitList]
    cases hv : visitItems types childTy d children [] with
    | error e =>
      simp only
      intro hc
      injection hc with hc
      exact H d [] m (by rw [hv, hc])
    | ok sub =>
      simp only
      cases hr : visitList types childTy children ds with
      | error e =>
        simp only
        intro hc
        injection hc with hc
        exact ih m (by rw [hr, hc])
      | ok rest => simp

theorem visit_no_assertion_bounded :
    ∀ n : Nat,
      (∀ items : List QueryItem, sizeOf items < n →
        ∀ (types : List (String × RecordType)) (rty : RecordType)
          (data : PValue) (acc : List (String × OValue)) (m : String),
          linksOkItems types rty items = true →
          visitItems types rty data items acc ≠ .error (.assertion m))
      ∧ (∀ i : QueryItem, sizeOf i < n →
        ∀ (types : List (String × RecordType)) (rty : RecordType)
          (data : PValue) (acc : List (String × OValue)) (m : String),
          linksOkItem types rty i = true →
          visitItem types rty data i acc ≠ .error (.assertion m)) := by
  intro n
  induction n with
  | zero =>
    exact ⟨fun items h => absurd h (Nat.not_lt_zero _),
      fun i h => absurd h (Nat.not_lt_zero _)⟩
  | succ n ih =>
    obtain ⟨ihItems, ihItem⟩ := ih
    constructor
    · intro items hsz types rty data acc m hok
      cases items with
      | nil => simp [visitItems]
      | cons i rest =>
        have hszi : sizeOf i < n := by simp at hsz; omega
        have hszr : sizeOf rest < n := by simp at hsz; omega
        simp only [linksOkItems, Bool.and_eq_true] at hok
        simp only [visitItems]
        cases hv : visitItem types rty data i acc with
        | error e =>
          simp only
          intro hc
          injection hc with hc
          exact ihItem i hszi types rty data acc m hok.1 (by rw [hv, hc])
        | ok acc' =>
          simp only
          exact ihItems rest hszr types rty data acc' m hok.2
    · intro i hsz types rty data acc m hok
      cases i with
      | field nm rkey =>
        simp only [visitItem]
        cases hp : proxyGet data rkey with
        | error e =>
          simp only
          intro hc
          injection hc with hc
          exact proxyGet_no_assertion data rkey m (by rw [hp, hc])
        | ok v => simp
      | link nm rkey ch =>
        have hszc : sizeOf ch < n := by simp at hsz; omega
        simp only [visitItem]
        simp only [linksOkItem] at hok
        cases hr : dictGet rty nm with
        | none => simp
        | some ty =>
          rw [hr] at hok
          cases ty with
          | typeref tn =>
            simp only
            cases hts : dictGet types tn with
            | none => simp
            | some childTy =>
              simp only [hts] at hok
              simp only
              cases hp : proxyGet data rkey with
              | error e =>
                simp only
                intro hc
                injection hc with hc
                exact proxyGet_no_assertion data rkey m (by rw [hp, hc])
              | ok childData =>
                simp only
                cases hvs : visitItems types childTy childData ch [] with
                | error e =>
                  simp only
                  intro hc
                  injection hc with hc
                  exact ihItems ch hszc types childTy childData [] m hok
                    (by rw [hvs, hc])
                | ok sub => simp
          | sequence item =>
            cases item with
            | typeref tn =>
              simp only
              cases hts : dictGet types tn with
              | none => simp
              | some childTy =>
                simp only [hts] at hok
                simp only
                cases hp : proxyGet data rkey with
                | error e =>
                  simp only
                  intro hc
                  injection hc with hc
                  exact proxyGet_no_assertion data rkey m (by rw [hp, hc])
                | ok lv =>
                  simp only
                  cases hpl : proxyItems lv with
                  | error e =>
                    simp only
                    intro hc
                    injection hc with hc
                    exact proxyItems_no_assertion lv m (by rw [hpl, hc])
                  | ok ds =>
                    simp only
                    cases hvl : visitList types childTy ch ds with
                    | error e =>
                      simp only
                      intro hc
                      injection hc with hc
                      refine visitList_no_assertion types childTy ch
                        ?_ ds m (by rw [hvl, hc])
                      intro d acc0 m0
                      exact ihItems ch hszc types childTy d acc0 m0 hok
                    | ok subs => simp
            | any => simp at hok
            | boolean => simp at hok
            | string => simp at hok
            | integer => simp at hok
            | float => simp at hok
            | optional inner => simp at hok
            | sequence it2 => simp at hok
            | mapping a b => simp at hok
            | record fs => simp at hok
            | callable as_ => simp at hok
          | optional inner =>
            cases inner with
            | typeref tn =>
              simp only
              cases hp : proxyGet data rkey with
              | error e =>
                simp only
                intro hc
                injection hc with hc
                exact proxyGet_no_assertion data rkey m (by rw [hp, hc])
              | ok v =>
                cases v with
                | null => simp
                | int x =>
                  simp only
                  cases hts : dictGet types tn with
                  | none => simp
                  | some childTy =>
                    simp only [hts] at hok
                    simp only
                    cases hvs : visitItems types childTy (.int x) ch [] with
                    | error e =>
                      simp only
                      intro hc
                      injection hc with hc
                      exact ihItems ch hszc types childTy (.int x) [] m hok
                        (by rw [hvs, hc])
                    | ok sub => simp
                | str x =>
                  simp only
                  cases hts : dictGet types tn with
                  | none => simp
                  | some childTy =>
                    simp only [hts] at hok
                    simp only
                    cases hvs : visitItems types childTy (.str x) ch [] with
                    | error e =>
                      simp only
                      intro hc
                      injection hc with hc
                      exact ihItems ch hszc types childTy (.str x) [] m hok
                        (by rw [hvs, hc])
                    | ok sub => simp
                | bool x =>
                  simp only
                  cases hts : dictGet types tn with
                  | none => simp
                  | some childTy =>
                    simp only [hts] at hok
                    simp only
                    cases hvs : visitItems types childTy (.bool x) ch [] with
                    | error e =>
                      simp only
                      intro hc
                      injection hc with hc
                      exact ihItems ch hszc types childTy (.bool x) [] m hok
                        (by rw [hvs, hc])
                    | ok sub => simp
                | obj x =>
                  simp only
                  cases hts : dictGet types tn with
                  | none => simp
                  | some childTy =>
                    simp only [hts] at hok
                    simp only
                    cases hvs : visitItems types childTy (.obj x) ch [] with
                    | error e =>
                      simp only
                      intro hc
                      injection hc with hc
                      exact ihItems ch hszc types childTy (.obj x) [] m hok
                        (by rw [hvs, hc])
                    | ok sub => simp
                | list x =>
                  simp only
                  cases hts : dictGet types tn with
                  | none => simp
                  | some childTy =>
                    simp only [hts] at hok
                    simp only
                    cases hvs : visitItems types childTy (.list x) ch [] with
                    | error e =>
                      simp only
                      intro hc
                      injection hc with hc
                      exact ihItems ch hszc types childTy (.list x) [] m hok
                        (by rw [hvs, hc])
                    | ok sub => simp
            | any => simp at hok
            | boolean => simp at hok
            | string => simp at hok
            | integer => simp at hok
            | float => simp at hok
            | optional i2 => simp at hok
            | sequence i2 => simp at hok
            | mapping a b => simp at hok
            | record fs => simp at hok
            | callable as_ => simp at hok
          | any => simp at hok
          | boolean => simp at hok
          | string => simp at hok
          | integer => simp at hok
          | float => simp at hok
          | mapping a b => simp at hok
          | record fs => simp at hok
          | callable as_ => simp at hok

/-- Counterexample to C8 as stated: a link declared `Optional(Integer)` — a
shape that is none of `TypeRef(X)`, `Optional(TypeRef(X))`,
`Sequence(TypeRef(X))` — whose proxy value is null is written as null and no
error is raised. -/
theorem link_shape_error_counterexample :
    sanctionedLinkType (.optional .integer) = false
    ∧ visitItem [] [("opt", .optional .integer)] (.obj [("opt", .null)])
        (.link "opt" "opt" []) [] = .ok [("opt", OValue.null)] := by
  refine ⟨rfl, ?_⟩
  simp [visitItem, proxyGet, dictGet, dictInsert]

/-- C8 (amended): when the projector reaches a link whose declared type is
outside the three sanctioned shapes it raises an internal `AssertionError` —
for a head constructor other than TypeRef/Sequence/Optional, for a Sequence
whose item type is not a TypeRef, and for an Optional whose inner type is
not a TypeRef when the proxy value is non-null; the one exception (forced by
the counterexample) is an Optional link with a null proxy value, which is
written as null without inspecting the inner type.  Under the precondition
that every link type reachable by the query is sanctioned, the assertion
branches are unreachable. -/
theorem link_invariant_error (types : List (String × RecordType))
    (rty : RecordType) (data : PValue) (name rkey : String)
    (children : List QueryItem) (acc : List (String × OValue)) :
    (∀ ty, dictGet rty name = some ty → linkBranchHead ty = false →
      visitItem types rty data (.link name rkey children) acc
        = .error (.assertion ("link type " ++ typeNodeName ty ++
            " is not TypeRef, Sequence or Optional")))
    ∧ (∀ item, dictGet rty name = some (.sequence item) →
        (∀ tn, item ≠ .typeref tn) →
        visitItem types rty data (.link name rkey children) acc
          = .error (.assertion "sequence item type is not a TypeRef"))
    ∧ (∀ inner v, dictGet rty name = some (.optional inner) →
        (∀ tn, inner ≠ .typeref tn) →
        proxyGet data rkey = .ok v → v ≠ .null →
        visitItem types rty data (.link name rkey children) acc
          = .error (.assertion "optional inner type is not a TypeRef"))
    ∧ (∀ inner, dictGet rty name = some (.optional inner) →
        proxyGet data rkey = .ok .null →
        visitItem types rty data (.link name rkey children) acc
          = .ok (dictInsert acc rkey .null))
    ∧ (∀ (items : List QueryItem) (m : String),
        linksOkItems types rty items = true →
        visitItems types rty data items acc ≠ .error (.assertion m)) := by
  refine ⟨?_, ?_, ?_, ?_, ?_⟩
  · intro ty hty hhead
    cases ty with
    | typeref tn => simp [linkBranchHead] at hhead
    | sequence item => simp [linkBranchHead] at hhead
    | optional inner => simp [linkBranchHead] at hhead
    | any => simp [visitItem, hty, typeNodeName]
    | boolean => simp [visitItem, hty, typeNodeName]
    | string => simp [visitItem, hty, typeNodeName]
    | integer => simp [visitItem, hty, typeNodeName]
    | float => simp [visitItem, hty, typeNodeName]
    | mapping a b => simp [visitItem, hty, typeNodeName]
    | record fs => simp [visitItem, hty, typeNodeName]
    | callable as_ => simp [visitItem, hty, typeNodeName]
  · intro item hty hnt
    cases item with
    | typeref tn => exact absurd rfl (hnt tn)
    | any => simp [visitItem, hty]
    | boolean => simp [visitItem, hty]
    | string => simp [visitItem, hty]
    | integer => simp [visitItem, hty]
    | float => simp [visitItem, hty]
    | optional i2 => simp [visitItem, hty]
    | sequence i2 => simp [visitItem, hty]
    | mapping a b => simp [visitItem, hty]
    | record fs => simp [visitItem, hty]
    | callable as_ => simp [visitItem, hty]
  · intro inner v hty hnt hp hv
    cases inner with
    | typeref tn => exact absurd rfl (hnt tn)
    | any => cases v <;> simp_all [visitItem, hty, hp]
    | boolean => cases v <;> simp_all [visitItem, hty, hp]
    | string => cases v <;> simp_all [visitItem, hty, hp]
    | integer => cases v <;> simp_all [visitItem, hty, hp]
    | float => cases v <;> simp_all [visitItem, hty, hp]
    | optional i2 => cases v <;> simp_all [visitItem, hty, hp]
    | sequence i2 => cases v <;> simp_all [visitItem, hty, hp]
    | mapping a b => cases v <;> simp_all [visitItem, hty, hp]
    | record fs => cases v <;> simp_all [visitItem, hty, hp]
    | callable as_ => cases v <;> simp_all [visitItem, hty, hp]
  · intro inner hty hp
    simp [visitItem, hty, hp]
  · intro items m hok
    exact (visit_no_assertion_bounded (sizeOf items + 1)).1 items
      (Nat.lt_succ_self _) types rty data acc m hok

/-- Witness for C8 (amended): a link typed plain `Integer` raises the
assertion, and a sanctioned one-link query never produces an assertion
error. -/
theorem link_invariant_error_witness :
    visitItem [] [("l", GType.integer)] .null (.link "l" "l" []) []
      = .error (.assertion ("link type " ++ typeNodeName .integer ++
          " is not TypeRef, Sequence or Optional"))
    ∧ visitItems [("T", [])] [("l", GType.typeref "T")]
        (.obj [("l", .obj [])]) [.link "l" "l" []] []
        ≠ .error (.assertion "boom") := by
  have h := link_invariant_error [] [("l", GType.integer)] .null "l" "l" [] []
  have h2 := link_invariant_error [("T", [])] [("l", GType.typeref "T")]
    (.obj [("l", .obj [])]) "l" "l" [] []
  exact ⟨h.1 GType.integer (by simp [dictGet]) (by simp [linkBranchHead]),
    h2.2.2.2.2 [.link "l" "l" []] "boom"
      (by simp [linksOkItems, linksOkItem, dictGet])⟩

/-- C3: two composite type nodes with the same constructor and recursively
equal parameters compare equal, and differing in at least one parameter
makes them unequal (`typeEq` coincides with structural equality); the hash
key is derived from the constructor tag alone, so two same-tag nodes always
hash equal even when structurally unequal. -/
theorem type_structural_eq_and_tag_hash :
    (∀ a b : GType, typeEq a b = true ↔ a = b)
    ∧ (∀ a b : GType, sameCtor a b = true → typeHashKey a = typeHashKey b)
    ∧ typeEq (.sequence .integer) (.sequence .boolean) = false
    ∧ typeHashKey (.sequence .integer) = typeHashKey (.sequence .boolean) := by
  refine ⟨typeEq_iff, ?_, rfl, rfl⟩
  intro a b h
  cases a <;> cases b <;> simp_all [sameCtor, typeHashKey, typeNodeName]

/-- Witness for C3: two independently written `Optional[TypeRef['A']]` nodes
compare equal, and `Record` nodes with different parameters share the
constructor hash key. -/
theorem type_structural_eq_and_tag_hash_witness :
    typeEq (.optional (.typeref "A")) (.optional (.typeref "A")) = true
    ∧ typeHashKey (.record [("a", .integer)]) = typeHashKey (.record []) := by
  have h := type_structural_eq_and_tag_hash
  exact ⟨(h.1 _ _).mpr rfl, h.2.1 _ _ rfl⟩

/-- C9: applying parameters to an already-parameterized (final) type
constructor fails with the `Cannot substitute parameters` error, for every
constructor variant and every parameter payload, and yields no node — the
final node is left unchanged. -/
theorem getitem_refuses_final (cls : TypingNode) (p : TypeParams)
    (h : cls.final = true) :
    getitem cls p = .error ("Cannot substitute parameters in " ++ cls.name)
    ∧ ∀ r, getitem cls p ≠ .ok r := by
  refine ⟨by simp [getitem, h], ?_⟩
  intro r
  simp [getitem, h]

/-- Witness for C9: re-parameterizing a final `Optional[Integer]` with
`String` fails. -/
theorem getitem_refuses_final_witness :
    getitem ⟨"Optional", some (.one .integer), true⟩ (.one .string)
      = .error "Cannot substitute parameters in Optional" :=
  (getitem_refuses_final ⟨"Optional", some (.one .integer), true⟩
    (.one .string) rfl).1

/-- C10: the introspection type-identity mapping sends `Any`, every
`Mapping(k, v)` and every inline `Record` to `SCALAR('Any')`, in both
output and input mode and for every data-type registry. -/
theorem type_ident_any_mapping_record
    (dataTypes : List (String × RecordType)) (inputMode : Bool) :
    typeIdentVisit dataTypes inputMode .any = .ok (.SCALAR "Any")
    ∧ (∀ k v, typeIdentVisit dataTypes inputMode (.mapping k v)
        = .ok (.SCALAR "Any"))
    ∧ (∀ fs, typeIdentVisit dataTypes inputMode (.record fs)
        = .ok (.SCALAR "Any")) :=
  ⟨rfl, fun _ _ => rfl, fun _ => rfl⟩

/-- C6 fails on the code: `directive_value_info` yields zero rows for one
identity whose name is not a registered directive, and
`input_value_type_link` yields one row per argument of the directive — two
rows for one `DirectiveArgIdent` of a two-argument directive — instead of
one row per identity. -/
theorem resolver_row_count_code_bug :
    directiveValueInfo builtinDirectives ["name"] [.DIRECTIVE "nope"]
      = .ok []
    ∧ inputValueTypeLink
        { queryGraph := { items := [], dataTypes := [] }
          mutationGraph := none
          directives := [⟨"pair", ["FIELD"], "a two-argument directive",
            [⟨"a", .SCALAR "String", "first", none⟩,
             ⟨"b", .SCALAR "Int", "second", none⟩]⟩] }
        [.DirectiveArgIdent "pair" "a"]
      = .ok [.SCALAR "String", .SCALAR "Int"] :=
  ⟨rfl, rfl⟩

theorem dictGet_isSome_iff {α : Type} (d : List (String × α)) (k : String) :
    (dictGet d k).isSome = true ↔ k ∈ d.map Prod.fst := by
  induction d with
  | nil => simp [dictGet]
  | cons p rest ih =>
    obtain ⟨k', v⟩ := p
    by_cases h : k' = k
    · simp [dictGet, h]
    · simp [dictGet, h, ih, Ne.symm h]

/-- C5: `__type(name: X)` resolves to the absence value (projected as null
through the link's Optional type) when `X` is neither a node name, the
Query root name, nor — when a mutation graph is present — the Mutation root
name, raising no error; for a registered name it resolves to the
`OBJECT(X)` identity. -/
theorem type_link_absence_or_object (s : SchemaInfo) (nm : String) :
    typeLink s nm
      = (if (dictGet (nodesMap s) nm).isSome then some (.OBJECT nm)
         else none)
    ∧ ((dictGet (nodesMap s) nm).isSome = true ↔
        nm ∈ s.queryGraph.nodes.map GNode.name ∨ nm = "Query"
        ∨ (s.mutationGraph.isSome = true ∧ nm = "Mutation")) := by
  constructor
  · unfold typeLink
    cases dictGet (nodesMap s) nm <;> simp
  · rw [dictGet_isSome_iff]
    cases hm : s.mutationGraph <;>
      simp [nodesMap, hm, eq_comm (a := nm)]

/-- Counterexample to C7 as stated: the synthetic `__typename` field
injected into a node is NOT included in the exposed field list — the
underscore filter of `type_fields_link` drops it like any other
underscore-prefixed name. -/
theorem type_fields_typename_counterexample :
    (addTypename ⟨"Foo", [.field ⟨"foo", []⟩]⟩).fields.map NodeField.name
      = ["foo", "__typename"]
    ∧ typeFieldsLink
        { queryGraph :=
            { items := [.node (addTypename ⟨"Foo", [.field ⟨"foo", []⟩]⟩),
                        .root ⟨[.field ⟨"r", []⟩]⟩]
              dataTypes := [] }
          mutationGraph := none
          directives := builtinDirectives }
        [.OBJECT "Foo"]
      = .ok [[.FieldIdent "Foo" "foo"]] :=
  ⟨rfl, rfl⟩

/-- C7 (amended): for every OBJECT identity naming a schema node, the
exposed field list holds exactly the node's members whose names do not
start with an underscore — every underscore-prefixed member, including the
injected synthetic `__typename` field, is excluded. -/
theorem type_fields_exclude_underscore (s : SchemaInfo) (nm : String)
    (fields : List NodeField) (row : List Ident)
    (hnode : dictGet (nodesMap s) nm = some fields)
    (hrow : typeFieldsLink s [.OBJECT nm] = .ok [row]) :
    (∀ fn, Ident.FieldIdent nm fn ∈ row ↔
      (∃ f ∈ fields, NodeField.name f = fn
        ∧ startsWithUnderscore fn = false))
    ∧ Ident.FieldIdent nm "__typename" ∉ row := by
  have hrow' : row = fields.filterMap (fun f =>
      if startsWithUnderscore f.name then none
      else some (Ident.FieldIdent nm f.name)) := by
    simp only [typeFieldsLink, typeFieldsRow, hnode] at hrow
    by_cases hc : (fields.filterMap (fun f =>
        if startsWithUnderscore f.name then none
        else some (Ident.FieldIdent nm f.name))).isEmpty
    · simp [hc] at hrow
    · simp only [hc, Bool.false_eq_true, if_false] at hrow
      injection hrow with hrow
      injection hrow with hrow
      exact hrow.symm
  have hmem : ∀ fn, Ident.FieldIdent nm fn ∈ row ↔
      (∃ f ∈ fields, NodeField.name f = fn
        ∧ startsWithUnderscore fn = false) := by
    intro fn
    rw [hrow']
    simp only [List.mem_filterMap]
    constructor
    · rintro ⟨f, hf, hg⟩
      by_cases hus : startsWithUnderscore (NodeField.name f)
      · simp [hus] at hg
      · rw [if_neg (by simp [hus])] at hg
        injection hg with hg
        injection hg with h1 h2
        subst h2
        exact ⟨f, hf, rfl, Bool.eq_false_iff.mpr hus⟩
    · rintro ⟨f, hf, hn, hns⟩
      refine ⟨f, hf, ?_⟩
      rw [hn]
      simp [hns]
  refine ⟨hmem, ?_⟩
  intro hin
  obtain ⟨f, _, _, hfalse⟩ := (hmem "__typename").mp hin
  simp [startsWithUnderscore] at hfalse

/-- Witness for C7 (amended): for the injected one-field node, `__typename`
is absent from the exposed row. -/
theorem type_fields_exclude_underscore_witness :
    Ident.FieldIdent "Foo" "__typename" ∉ [Ident.FieldIdent "Foo" "foo"] :=
  (type_fields_exclude_underscore
    { queryGraph :=
        { items := [.node (addTypename ⟨"Foo", [.field ⟨"foo", []⟩]⟩),
                    .root ⟨[.field ⟨"r", []⟩]⟩]
          dataTypes := [] }
      mutationGraph := none
      directives := builtinDirectives }
    "Foo" [.field ⟨"foo", []⟩, .field ⟨"__typename", []⟩]
    [.FieldIdent "Foo" "foo"] rfl rfl).2

theorem optionErrors_eq_nil (path : List String) (o : GOption) :
    optionErrors path o = [] ↔ validName o.name = true := by
  by_cases h : validName o.name <;> simp [optionErrors, h]

theorem fieldErrors_eq_nil (path : List String) (d : GFieldData) :
    fieldErrors path d = []
      ↔ (validName d.name = true
          ∧ ∀ o ∈ d.options, validName o.name = true) := by
  by_cases h : validName d.name <;>
    simp [fieldErrors, h, List.flatten_eq_nil_iff, optionErrors_eq_nil]

theorem linkErrors_eq_nil (path : List String) (d : GFieldData) :
    linkErrors path d = []
      ↔ (validName d.name = true
          ∧ ∀ o ∈ d.options, validName o.name = true) := by
  by_cases h : validName d.name <;>
    simp [linkErrors, h, List.flatten_eq_nil_iff, optionErrors_eq_nil]

theorem nodeFieldErrors_eq_nil (path : List String) (f : NodeField) :
    nodeFieldErrors path f = []
      ↔ (validName f.name = true
          ∧ ∀ o ∈ f.data.options, validName o.name = true) := by
  cases f with
  | field d =>
    simp [nodeFieldErrors, fieldErrors_eq_nil, NodeField.name, NodeField.data]
  | link d =>
    simp [nodeFieldErrors, linkErrors_eq_nil, NodeField.name, NodeField.data]

theorem nodeErrors_eq_nil (n : GNode) :
    nodeErrors n = []
      ↔ (validName n.name = true ∧ n.fields ≠ []
          ∧ ∀ f ∈ n.fields, validName f.name = true
              ∧ ∀ o ∈ f.data.options, validName o.name = true) := by
  by_cases h : validName n.name
  · cases hf : n.fields with
    | nil => simp [nodeErrors, h, hf]
    | cons f rest =>
      simp [nodeErrors, h, hf, List.flatten_eq_nil_iff, nodeFieldErrors_eq_nil]
  · simp [nodeErrors, h]

theorem rootErrors_eq_nil (r : GRoot) :
    rootErrors r = []
      ↔ (r.fields ≠ []
          ∧ ∀ f ∈ r.fields, validName f.name = true
              ∧ ∀ o ∈ f.data.options, validName o.name = true) := by
  cases hf : r.fields with
  | nil => simp [rootErrors, hf]
  | cons f rest =>
    simp [rootErrors, hf, List.flatten_eq_nil_iff, nodeFieldErrors_eq_nil]

theorem graphErrors_eq_nil (g : GGraph) :
    graphErrors g = [] ↔ WellFormedGraph g := by
  unfold graphErrors WellFormedGraph
  rw [List.flatten_eq_nil_iff]
  constructor
  · intro h item hitem
    have := h (graphItemErrors item) (List.mem_map_of_mem _ hitem)
    cases item with
    | node n =>
      simpa [graphItemErrors, nodeErrors_eq_nil] using this
    | root r =>
      simpa [graphItemErrors, rootErrors_eq_nil] using this
  · intro h l hl
    obtain ⟨item, hitem, rfl⟩ := List.mem_map.mp hl
    have := h item hitem
    cases item with
    | node n =>
      simp only [graphItemErrors, nodeErrors_eq_nil]
      exact this
    | root r =>
      simp only [graphItemErrors, rootErrors_eq_nil]
      exact this

/-- C4: graph validation collects every violation across the whole graph —
it passes exactly on well-formed graphs, and otherwise fails with a single
aggregated error listing each violation as `<path>: <message>`; a schema
with three independent naming violations yields one error naming all three,
and a violation-free graph raises nothing. -/
theorem validate_aggregates_all_violations :
    (∀ g : GGraph, validateGraph g = .ok () ↔ WellFormedGraph g)
    ∧ validateGraph
        ⟨[.node ⟨"Bad-Node", [.field ⟨"bad-field", []⟩]⟩,
          .root ⟨[.field ⟨"ok_field", [⟨"bad-opt", .integer⟩]⟩]⟩], []⟩
      = .error ("Invalid GraphQL graph:\n- Bad-Node: Invalid node name: Bad-Node\n- Bad-Node.bad-field: Invalid field name: bad-field\n- Root.bad-opt: Invalid option name: bad-opt")
    ∧ validateGraph
        ⟨[.node ⟨"Foo", [.field ⟨"bar", []⟩]⟩,
          .root ⟨[.field ⟨"baz", []⟩]⟩], []⟩
      = .ok () := by
  refine ⟨?_, by rfl, by rfl⟩
  intro g
  constructor
  · intro h
    by_cases hg : graphErrors g = []
    · exact (graphErrors_eq_nil g).mp hg
    · simp [validateGraph, hg] at h
  · intro h
    simp [validateGraph, (graphErrors_eq_nil g).mpr h]

/-- Witness for C4: the violation-free two-item graph is well-formed,
obtained through the validation equivalence at a concrete input. -/
theorem validate_aggregates_all_violations_witness :
    WellFormedGraph
      ⟨[.node ⟨"Foo", [.field ⟨"bar", []⟩]⟩,
        .root ⟨[.field ⟨"baz", []⟩]⟩], []⟩ :=
  (validate_aggregates_all_violations.1
    ⟨[.node ⟨"Foo", [.field ⟨"bar", []⟩]⟩,
      .root ⟨[.field ⟨"baz", []⟩]⟩], []⟩).mp rfl

/-- Witness for C5: an unregistered name resolves to the absence value on a
concrete schema. -/
theorem type_link_absence_or_object_witness :
    typeLink
      { queryGraph := { items := [.node ⟨"Foo", [.field ⟨"f", []⟩]⟩,
                                  .root ⟨[.field ⟨"r", []⟩]⟩],
                        dataTypes := [] }
        mutationGraph := none
        directives := builtinDirectives } "Nope" = none := by
  rw [(type_link_absence_or_object
    { queryGraph := { items := [.node ⟨"Foo", [.field ⟨"f", []⟩]⟩,
                                .root ⟨[.field ⟨"r", []⟩]⟩],
                      dataTypes := [] }
      mutationGraph := none
      directives := builtinDirectives } "Nope").1]
  rfl

end Hiku
